import Mathlib

/-!
Shallow embedding of the `post_google_index` repository core:
the CSV state store (`src/csv_manager.py`) and the batch submission
engine (`src/indexing.py`), together with theorems settling the
frozen claims about them.

Modelling conventions:
* a CSV table is a `List UrlRecord` in stored (file) order; `read_csv` /
  `write_csv` are abstracted away, so a store operation is a pure function
  from the loaded table to the table it persists (an `Option`/flag records
  whether `write_csv` was invoked at all);
* the wall clock (`datetime.now().isoformat()`) is passed in as an opaque
  string parameter `now`;
* Python's `int(...)` on the canonical digit strings this module writes into
  `retry_count` is modelled by `String.toNat?` with default 0.
-/

/-- One row of the CSV table, fields exactly as in `CSV_HEADERS` of
`csv_manager.py`; all fields are serialized strings. -/
structure UrlRecord where
  url : String
  status : String
  lastmod : String
  created_at : String
  updated_at : String
  retry_count : String
deriving DecidableEq, Repr

/-- Status literal `STATUS_PENDING` from `csv_manager.py`. -/
def STATUS_PENDING : String := "PENDING"

/-- Status literal `STATUS_SUCCESS` from `csv_manager.py`. -/
def STATUS_SUCCESS : String := "SUCCESS"

/-- Status literal `STATUS_FAILED` from `csv_manager.py`. -/
def STATUS_FAILED : String := "FAILED"

/-- A sitemap candidate handed to `add_urls_batch`: in Python a dict read
with `url_info.get('loc', '')` and `url_info.get('lastmod', '')`; a missing
key is represented by the empty string. -/
structure Candidate where
  loc : String
  lastmod : String
deriving DecidableEq, Repr

/-- The fresh row `add_url` / `add_urls_batch` append for a new URL. -/
def newRecord (now url lastmod : String) : UrlRecord :=
  { url := url, status := STATUS_PENDING, lastmod := lastmod,
    created_at := now, updated_at := now, retry_count := "0" }

/-- Result of `add_urls_batch`: the table content after the call, the
returned `added_count`, and whether `write_csv` was invoked (`saved`). -/
structure BatchAddResult where
  table : List UrlRecord
  added : Nat
  saved : Bool
deriving DecidableEq, Repr

/-- The `for url_info in urls` loop of `add_urls_batch`: threads the table
being built, the `existing_urls` membership set (as a list), and the
`added_count` counter. -/
def add_urls_batch_loop (now : String) :
    List Candidate → List UrlRecord → List String → Nat →
      List UrlRecord × List String × Nat
  | [], data, existing, count => (data, existing, count)
  | c :: rest, data, existing, count =>
    if c.loc = "" ∨ c.loc ∈ existing then
      add_urls_batch_loop now rest data existing count
    else
      add_urls_batch_loop now rest (data ++ [newRecord now c.loc c.lastmod])
        (c.loc :: existing) (count + 1)

/-- Embedding of `add_urls_batch` (`csv_manager.py` lines 259-317): skip a
candidate whose URL is empty or already present, append a PENDING row
otherwise, and call `write_csv` only when at least one row was added. -/
def add_urls_batch (now : String) (data : List UrlRecord)
    (urls : List Candidate) : BatchAddResult :=
  let existing := data.map (fun r => r.url)
  let res := add_urls_batch_loop now urls data existing 0
  { table := res.1, added := res.2.2, saved := decide (0 < res.2.2) }

/-- The in-place row mutation performed by `update_url_status` on the first
matching row: set `status`, refresh `updated_at`, and (optionally) increment
`retry_count`. -/
def update_record (now status : String) (increment_retry : Bool)
    (r : UrlRecord) : UrlRecord :=
  { r with
    status := status
    updated_at := now
    retry_count :=
      if increment_retry then toString (r.retry_count.toNat?.getD 0 + 1)
      else r.retry_count }

/-- Embedding of `update_url_status` (`csv_manager.py` lines 187-228):
update the first row whose `url` matches and persist the whole table
(`some` result); return `none` (Python `False`, no `write_csv` call) when no
row matches. -/
def update_url_status (now : String) (data : List UrlRecord)
    (url status : String) (increment_retry : Bool) :
    Option (List UrlRecord) :=
  match data with
  | [] => none
  | r :: rest =>
    if r.url = url then some (update_record now status increment_retry r :: rest)
    else (update_url_status now rest url status increment_retry).map
      (fun d => r :: d)

/-- Embedding of `get_pending_urls` (`csv_manager.py` lines 231-256):
filter the table to PENDING rows in stored order, then apply the optional
`limit` as a prefix slice. -/
def get_pending_urls (data : List UrlRecord) (limit : Option Nat) :
    List UrlRecord :=
  let pending := data.filter (fun r => decide (r.status = STATUS_PENDING))
  match limit with
  | some n => pending.take n
  | none => pending

/-- Statistics record returned by `get_statistics`. -/
structure Stats where
  total : Nat
  pending : Nat
  success : Nat
  failed : Nat
deriving DecidableEq, Repr

/-- Embedding of `get_statistics` (`csv_manager.py` lines 320-358): `total`
is the row count, then one forward scan classifies each row by an
`if/elif` chain on its exact status string. -/
def get_statistics (data : List UrlRecord) : Stats :=
  data.foldl
    (fun s r =>
      if r.status = STATUS_PENDING then { s with pending := s.pending + 1 }
      else if r.status = STATUS_SUCCESS then { s with success := s.success + 1 }
      else if r.status = STATUS_FAILED then { s with failed := s.failed + 1 }
      else s)
    { total := data.length, pending := 0, success := 0, failed := 0 }

/-!
Embedding of the submission engine (`src/indexing.py`).

The external batch API is modelled by a behaviour oracle
`b : Nat → String → Option String`: in batch round `k`, submitting URL `u`
either succeeds (`b k u = none`) or fails with the (already classified)
error message `e` (`b k u = some e`).  `_execute_batch_request` keys its
result dict by URL, so duplicate entries in the submitted list collapse to
one entry at the position of the first occurrence; `dedupFirst` models
that dict-key semantics.
-/

/-- Per-round behaviour of the external batch endpoint: `none` is success,
`some e` a failure whose surfaced message is `e`. -/
abbrev Behaviour := Nat → String → Option String

/-- Keep the first occurrence of every string, in order: the key order of a
Python dict filled by iterating the list. -/
def dedupFirst : List String → List String
  | [] => []
  | u :: rest => u :: (dedupFirst rest).filter (fun v => decide (v ≠ u))

/-- Embedding of `_execute_batch_request` (`indexing.py` lines 170-248) for
a fixed round: the result dict, as an association list keyed by distinct
URLs in first-submission order, pairing each URL with its outcome. -/
def execute_batch_request (oracle : String → Option String)
    (urls : List String) : List (String × Option String) :=
  (dedupFirst urls).map (fun u => (u, oracle u))

/-- A notification: one invocation of the caller-supplied callback, which in
the source coincides with one insertion into `final_results`. -/
structure NotifyEvent where
  url : String
  success : Bool
  error : Option String
  attempt : Nat
deriving DecidableEq, Repr

/-- Observable trace of one `submit_urls` call: the callback invocations in
order (`events`), each round's submitted working set in order (`batches`),
and how many inter-round `time.sleep` delays ran (`sleeps`). -/
structure SubmitState where
  events : List NotifyEvent
  batches : List (List String)
  sleeps : Nat
deriving DecidableEq, Repr

/-- The `for url, (success, error) in batch_results.items()` loop of
`submit_urls`: from one round's results, the `next_retry_urls` list and the
final-outcome notifications fired this round, both in iteration order. -/
def processRound (attempt max_retry : Nat) :
    List (String × Option String) → List String × List NotifyEvent
  | [] => ([], [])
  | (u, res) :: rest =>
    let tail := processRound attempt max_retry rest
    match res with
    | none => (tail.1, ⟨u, true, none, attempt⟩ :: tail.2)
    | some e =>
      if attempt < max_retry then (u :: tail.1, tail.2)
      else (tail.1, ⟨u, false, some e, attempt⟩ :: tail.2)

/-- The `while urls_to_retry and attempt < max_retry` loop of `submit_urls`,
with `fuel = max_retry - attempt` as termination measure. -/
def submitLoop (b : Behaviour) (max_retry : Nat) :
    Nat → List String → Nat → SubmitState → SubmitState
  | 0, _, _, st => st
  | fuel + 1, ws, attempt, st =>
    if ws.isEmpty then st
    else
      let a := attempt + 1
      let resp := execute_batch_request (b a) ws
      let round := processRound a max_retry resp
      let st' : SubmitState :=
        { events := st.events ++ round.2
          batches := st.batches ++ [ws]
          sleeps := st.sleeps +
            (if ¬round.1.isEmpty ∧ a < max_retry then 1 else 0) }
      submitLoop b max_retry fuel round.1 a st'

/-- Embedding of `submit_urls` (`indexing.py` lines 63-167): reject an empty
list or more than 100 URLs with the corresponding `ValueError` message,
otherwise run the bounded retry loop and return its observable trace. -/
def submit_urls (b : Behaviour) (urls : List String) (max_retry : Nat) :
    Except String SubmitState :=
  if urls.isEmpty then Except.error "URL 리스트가 비어있습니다."
  else if 100 < urls.length then
    Except.error "배치 요청은 최대 100개의 URL만 허용됩니다."
  else Except.ok (submitLoop b max_retry max_retry urls 0 ⟨[], [], 0⟩)

/-- Error-message classification of `_execute_batch_request`
(`indexing.py` lines 205-228): 403, 429 and 400 responses get a decorated
message, every other failure surfaces its raw message. -/
def classify_error (status : Nat) (msg : String) : String :=
  if status = 403 then "권한 없음 (403): " ++ msg
  else if status = 429 then "할당량 초과 (429): " ++ msg
  else if status = 400 then "잘못된 요청 (400): " ++ msg
  else msg

/-- The round of the first success of `u` among rounds `1..max_retry`, if
any, under behaviour `b`. -/
def first_success (b : Behaviour) (max_retry : Nat) (u : String) :
    Option Nat :=
  (List.range' 1 max_retry).find? (fun k => (b k u).isNone)

/-- The unique notification the retry loop emits for a URL `u` still in the
working set when rounds `attempt+1 .. attempt+fuel` remain (`R = attempt +
fuel`): a success event at the first round where `b` succeeds for `u`, else
a failure event carrying round `R`'s error message. -/
def expectedEvent (b : Behaviour) (R attempt fuel : Nat) (u : String) :
    NotifyEvent :=
  match (List.range' (attempt + 1) fuel).find? (fun k => (b k u).isNone) with
  | some k => ⟨u, true, none, k⟩
  | none => ⟨u, false, b R u, R⟩

/-- Pointwise union of two traces: how `submitLoop` extends an accumulator
state. -/
def addState (st rec : SubmitState) : SubmitState :=
  { events := st.events ++ rec.events
    batches := st.batches ++ rec.batches
    sleeps := st.sleeps + rec.sleeps }

/-- Message-erased view of a trace, for the classification-independence
claim: keeps every callback's URL, verdict and attempt number, the full
round structure and the delays, and drops only error strings. -/
def eraseView (st : SubmitState) :
    List (String × Bool × Nat) × List (List String) × Nat :=
  (st.events.map (fun e => (e.url, e.success, e.attempt)), st.batches,
    st.sleeps)

/-!
Lemmas and theorems for the state-store claims.
-/

theorem get_statistics_foldl (data : List UrlRecord) (s : Stats) :
    data.foldl
      (fun s r =>
        if r.status = STATUS_PENDING then { s with pending := s.pending + 1 }
        else if r.status = STATUS_SUCCESS then { s with success := s.success + 1 }
        else if r.status = STATUS_FAILED then { s with failed := s.failed + 1 }
        else s) s =
    { total := s.total
      pending := s.pending + data.countP (fun r => decide (r.status = STATUS_PENDING))
      success := s.success + data.countP (fun r => decide (r.status = STATUS_SUCCESS))
      failed := s.failed + data.countP (fun r => decide (r.status = STATUS_FAILED)) } := by
  induction data generalizing s with
  | nil => simp
  | cons r rest ih =>
    by_cases hp : r.status = STATUS_PENDING
    · have hs : ¬ r.status = STATUS_SUCCESS := by
        rw [hp]; simp [STATUS_PENDING, STATUS_SUCCESS]
      have hf : ¬ r.status = STATUS_FAILED := by
        rw [hp]; simp [STATUS_PENDING, STATUS_FAILED]
      have c1 := List.countP_cons_of_pos
        (fun r : UrlRecord => decide (r.status = STATUS_PENDING)) rest
        (a := r) (by simp [hp])
      have c2 := List.countP_cons_of_neg
        (fun r : UrlRecord => decide (r.status = STATUS_SUCCESS)) rest
        (a := r) (by simp [hs])
      have c3 := List.countP_cons_of_neg
        (fun r : UrlRecord => decide (r.status = STATUS_FAILED)) rest
        (a := r) (by simp [hf])
      rw [List.foldl_cons, if_pos hp, ih, c1, c2, c3]
      simp only [Stats.mk.injEq]
      exact ⟨trivial, by omega, trivial, trivial⟩
    · by_cases hs : r.status = STATUS_SUCCESS
      · have hf : ¬ r.status = STATUS_FAILED := by
          rw [hs]; simp [STATUS_SUCCESS, STATUS_FAILED]
        have c1 := List.countP_cons_of_neg
          (fun r : UrlRecord => decide (r.status = STATUS_PENDING)) rest
          (a := r) (by simp [hp])
        have c2 := List.countP_cons_of_pos
          (fun r : UrlRecord => decide (r.status = STATUS_SUCCESS)) rest
          (a := r) (by simp [hs])
        have c3 := List.countP_cons_of_neg
          (fun r : UrlRecord => decide (r.status = STATUS_FAILED)) rest
          (a := r) (by simp [hf])
        rw [List.foldl_cons, if_neg hp, if_pos hs, ih, c1, c2, c3]
        simp only [Stats.mk.injEq]
        exact ⟨trivial, trivial, by omega, trivial⟩
      · by_cases hf : r.status = STATUS_FAILED
        · have c1 := List.countP_cons_of_neg
            (fun r : UrlRecord => decide (r.status = STATUS_PENDING)) rest
            (a := r) (by simp [hp])
          have c2 := List.countP_cons_of_neg
            (fun r : UrlRecord => decide (r.status = STATUS_SUCCESS)) rest
            (a := r) (by simp [hs])
          have c3 := List.countP_cons_of_pos
            (fun r : UrlRecord => decide (r.status = STATUS_FAILED)) rest
            (a := r) (by simp [hf])
          rw [List.foldl_cons, if_neg hp, if_neg hs, if_pos hf, ih, c1, c2, c3]
          simp only [Stats.mk.injEq]
          exact ⟨trivial, trivial, trivial, by omega⟩
        · have c1 := List.countP_cons_of_neg
            (fun r : UrlRecord => decide (r.status = STATUS_PENDING)) rest
            (a := r) (by simp [hp])
          have c2 := List.countP_cons_of_neg
            (fun r : UrlRecord => decide (r.status = STATUS_SUCCESS)) rest
            (a := r) (by simp [hs])
          have c3 := List.countP_cons_of_neg
            (fun r : UrlRecord => decide (r.status = STATUS_FAILED)) rest
            (a := r) (by simp [hf])
          rw [List.foldl_cons, if_neg hp, if_neg hs, if_neg hf, ih, c1, c2, c3]

theorem countP_three_way (data : List UrlRecord) :
    data.countP (fun r => decide (r.status = STATUS_PENDING)) +
      data.countP (fun r => decide (r.status = STATUS_SUCCESS)) +
      data.countP (fun r => decide (r.status = STATUS_FAILED)) +
      data.countP (fun r => decide (¬ (r.status = STATUS_PENDING ∨
        r.status = STATUS_SUCCESS ∨ r.status = STATUS_FAILED))) =
      data.length := by
  induction data with
  | nil => simp
  | cons r rest ih =>
    have stepP := fun (h : decide (r.status = STATUS_PENDING) = true) =>
      List.countP_cons_of_pos
        (fun r : UrlRecord => decide (r.status = STATUS_PENDING)) rest (a := r) h
    have stepP0 := fun (h : ¬ decide (r.status = STATUS_PENDING) = true) =>
      List.countP_cons_of_neg
        (fun r : UrlRecord => decide (r.status = STATUS_PENDING)) rest (a := r) h
    have stepS := fun (h : decide (r.status = STATUS_SUCCESS) = true) =>
      List.countP_cons_of_pos
        (fun r : UrlRecord => decide (r.status = STATUS_SUCCESS)) rest (a := r) h
    have stepS0 := fun (h : ¬ decide (r.status = STATUS_SUCCESS) = true) =>
      List.countP_cons_of_neg
        (fun r : UrlRecord => decide (r.status = STATUS_SUCCESS)) rest (a := r) h
    have stepF := fun (h : decide (r.status = STATUS_FAILED) = true) =>
      List.countP_cons_of_pos
        (fun r : UrlRecord => decide (r.status = STATUS_FAILED)) rest (a := r) h
    have stepF0 := fun (h : ¬ decide (r.status = STATUS_FAILED) = true) =>
      List.countP_cons_of_neg
        (fun r : UrlRecord => decide (r.status = STATUS_FAILED)) rest (a := r) h
    have stepN := fun (h : decide (¬ (r.status = STATUS_PENDING ∨
        r.status = STATUS_SUCCESS ∨ r.status = STATUS_FAILED)) = true) =>
      List.countP_cons_of_pos
        (fun r : UrlRecord => decide (¬ (r.status = STATUS_PENDING ∨
          r.status = STATUS_SUCCESS ∨ r.status = STATUS_FAILED))) rest (a := r) h
    have stepN0 := fun (h : ¬ decide (¬ (r.status = STATUS_PENDING ∨
        r.status = STATUS_SUCCESS ∨ r.status = STATUS_FAILED)) = true) =>
      List.countP_cons_of_neg
        (fun r : UrlRecord => decide (¬ (r.status = STATUS_PENDING ∨
          r.status = STATUS_SUCCESS ∨ r.status = STATUS_FAILED))) rest (a := r) h
    by_cases hp : r.status = STATUS_PENDING
    · have hs : ¬ r.status = STATUS_SUCCESS := by
        rw [hp]; simp [STATUS_PENDING, STATUS_SUCCESS]
      have hf : ¬ r.status = STATUS_FAILED := by
        rw [hp]; simp [STATUS_PENDING, STATUS_FAILED]
      rw [stepP (by simp [hp]), stepS0 (by simp [hs]), stepF0 (by simp [hf]),
        stepN0 (by simp [hp]), List.length_cons]
      omega
    · by_cases hs : r.status = STATUS_SUCCESS
      · have hf : ¬ r.status = STATUS_FAILED := by
          rw [hs]; simp [STATUS_SUCCESS, STATUS_FAILED]
        rw [stepP0 (by simp [hp]), stepS (by simp [hs]), stepF0 (by simp [hf]),
          stepN0 (by simp [hs]), List.length_cons]
        omega
      · by_cases hf : r.status = STATUS_FAILED
        · rw [stepP0 (by simp [hp]), stepS0 (by simp [hs]), stepF (by simp [hf]),
            stepN0 (by simp [hf]), List.length_cons]
          omega
        · rw [stepP0 (by simp [hp]), stepS0 (by simp [hs]), stepF0 (by simp [hf]),
            stepN (by simp [hp, hs, hf]), List.length_cons]
          omega

/-- C9: `get_statistics` reports `total` as the record count while the three
category counters count exactly the records whose status is the matching
enum literal; a record with any other status string is counted in `total`
but in no category, so `pending + success + failed ≤ total`, with equality
exactly when every record's status is one of the three literals. -/
theorem get_statistics_counts (data : List UrlRecord) :
    (get_statistics data).total = data.length ∧
    (get_statistics data).pending =
      data.countP (fun r => decide (r.status = STATUS_PENDING)) ∧
    (get_statistics data).success =
      data.countP (fun r => decide (r.status = STATUS_SUCCESS)) ∧
    (get_statistics data).failed =
      data.countP (fun r => decide (r.status = STATUS_FAILED)) ∧
    (get_statistics data).pending + (get_statistics data).success +
        (get_statistics data).failed ≤ (get_statistics data).total ∧
    ((get_statistics data).pending + (get_statistics data).success +
          (get_statistics data).failed = (get_statistics data).total ↔
      ∀ r ∈ data, r.status = STATUS_PENDING ∨ r.status = STATUS_SUCCESS ∨
        r.status = STATUS_FAILED) := by
  have hfold := get_statistics_foldl data
    { total := data.length, pending := 0, success := 0, failed := 0 }
  have hstats : get_statistics data =
      { total := data.length
        pending := data.countP (fun r => decide (r.status = STATUS_PENDING))
        success := data.countP (fun r => decide (r.status = STATUS_SUCCESS))
        failed := data.countP (fun r => decide (r.status = STATUS_FAILED)) } := by
    unfold get_statistics
    rw [hfold]; simp
  have hsum := countP_three_way data
  have h1 : (get_statistics data).total = data.length := by rw [hstats]
  have h2 : (get_statistics data).pending =
      data.countP (fun r => decide (r.status = STATUS_PENDING)) := by rw [hstats]
  have h3 : (get_statistics data).success =
      data.countP (fun r => decide (r.status = STATUS_SUCCESS)) := by rw [hstats]
  have h4 : (get_statistics data).failed =
      data.countP (fun r => decide (r.status = STATUS_FAILED)) := by rw [hstats]
  refine ⟨h1, h2, h3, h4, ?_, ?_⟩
  · rw [h1, h2, h3, h4]; omega
  · rw [h1, h2, h3, h4]
    constructor
    · intro h
      have hzero : data.countP (fun r => decide (¬ (r.status = STATUS_PENDING ∨
          r.status = STATUS_SUCCESS ∨ r.status = STATUS_FAILED))) = 0 := by omega
      intro r hr
      by_contra hcon
      have := List.countP_eq_zero.mp hzero r hr
      simp only [decide_eq_true_eq] at this
      exact this hcon
    · intro h
      have hzero : data.countP (fun r => decide (¬ (r.status = STATUS_PENDING ∨
          r.status = STATUS_SUCCESS ∨ r.status = STATUS_FAILED))) = 0 := by
        rw [List.countP_eq_zero]
        intro r hr
        simp only [decide_eq_true_eq, not_not]
        exact h r hr
      omega

/-- Witness for C9 at a concrete two-row table with one off-enum status. -/
theorem get_statistics_counts_witness :
    (get_statistics [newRecord "t" "u1" "",
        { newRecord "t" "u2" "" with status := "WEIRD" }]).total = 2 ∧
    (get_statistics [newRecord "t" "u1" "",
        { newRecord "t" "u2" "" with status := "WEIRD" }]).pending = 1 := by
  have h := get_statistics_counts [newRecord "t" "u1" "",
    { newRecord "t" "u2" "" with status := "WEIRD" }]
  exact ⟨by rw [h.1]; decide, by rw [h.2.1]; decide⟩

/-- C6: `get_pending_urls` with `limit = N` returns at most `N` records, all
with status PENDING; the result is exactly the first `min N (number of
pending)` pending records in stored table order (a prefix of the PENDING
filter, hence a sublist of the table). -/
theorem get_pending_urls_bounded (data : List UrlRecord) (N : Nat) :
    (get_pending_urls data (some N)).length ≤ N ∧
    (∀ r ∈ get_pending_urls data (some N), r.status = STATUS_PENDING) ∧
    get_pending_urls data (some N) =
      (data.filter (fun r => decide (r.status = STATUS_PENDING))).take N ∧
    (get_pending_urls data (some N)).length =
      min N (data.filter (fun r => decide (r.status = STATUS_PENDING))).length ∧
    (get_pending_urls data (some N)).Sublist data := by
  refine ⟨?_, ?_, rfl, ?_, ?_⟩
  · simp [get_pending_urls, List.length_take]
  · intro r hr
    simp only [get_pending_urls] at hr
    have hmem := List.mem_of_mem_take hr
    have := (List.mem_filter.mp hmem).2
    simpa using this
  · simp [get_pending_urls, List.length_take]
  · exact (List.take_sublist _ _).trans (List.filter_sublist _)

/-- Witness for C6 at a concrete three-row table and limit 1. -/
theorem get_pending_urls_bounded_witness :
    (get_pending_urls [newRecord "t" "u1" "",
        { newRecord "t" "u2" "" with status := "SUCCESS" },
        newRecord "t" "u3" ""] (some 1)).length ≤ 1 ∧
    (newRecord "t" "u1" "").status = STATUS_PENDING := by
  have h := get_pending_urls_bounded [newRecord "t" "u1" "",
    { newRecord "t" "u2" "" with status := "SUCCESS" },
    newRecord "t" "u3" ""] 1
  exact ⟨h.1, h.2.1 (newRecord "t" "u1" "") (by decide)⟩

theorem add_urls_batch_loop_skip (now : String) :
    ∀ (cands : List Candidate) (data : List UrlRecord) (existing : List String)
      (count : Nat),
    (∀ c ∈ cands, c.loc = "" ∨ c.loc ∈ existing) →
    add_urls_batch_loop now cands data existing count = (data, existing, count) := by
  intro cands
  induction cands with
  | nil => intro data existing count _; rfl
  | cons c rest ih =>
    intro data existing count h
    have hc := h c (List.mem_cons_self c rest)
    simp only [add_urls_batch_loop]
    rw [if_pos hc]
    exact ih data existing count (fun c' hc' => h c' (List.mem_cons_of_mem c hc'))

theorem add_urls_batch_loop_spec (now : String) :
    ∀ (cands : List Candidate) (data : List UrlRecord) (existing : List String)
      (count : Nat),
    ∃ new : List UrlRecord,
      (add_urls_batch_loop now cands data existing count).1 = data ++ new ∧
      (add_urls_batch_loop now cands data existing count).2.2 =
        count + new.length ∧
      (∀ r ∈ new, r.status = STATUS_PENDING ∧ r.retry_count = "0" ∧
        r.url ≠ "" ∧ r.url ∉ existing) ∧
      (new.map (fun r => r.url)).Nodup ∧
      (∀ c ∈ cands, c.loc ≠ "" →
        c.loc ∈ (add_urls_batch_loop now cands data existing count).2.1) ∧
      (∀ u ∈ (add_urls_batch_loop now cands data existing count).2.1,
        u ∈ existing ∨ u ∈ new.map (fun r => r.url)) ∧
      (∀ u ∈ existing,
        u ∈ (add_urls_batch_loop now cands data existing count).2.1) := by
  intro cands
  induction cands with
  | nil =>
    intro data existing count
    exact ⟨[], by simp [add_urls_batch_loop], by simp [add_urls_batch_loop],
      by simp, by simp, by simp, fun u hu => Or.inl hu, fun u hu => hu⟩
  | cons c rest ih =>
    intro data existing count
    by_cases h : c.loc = "" ∨ c.loc ∈ existing
    · have heq : add_urls_batch_loop now (c :: rest) data existing count =
          add_urls_batch_loop now rest data existing count := by
        simp only [add_urls_batch_loop]; rw [if_pos h]
      obtain ⟨new, h1, h2, h3, h4, h5, h6, h7⟩ := ih data existing count
      rw [heq]
      refine ⟨new, h1, h2, h3, h4, ?_, h6, h7⟩
      intro c' hc' hne
      rcases List.mem_cons.mp hc' with hcc | hcc
      · subst hcc
        rcases h with hemp | hex
        · exact absurd hemp hne
        · exact h7 c'.loc hex
      · exact h5 c' hcc hne
    · push_neg at h
      obtain ⟨hne, hni⟩ := h
      have heq : add_urls_batch_loop now (c :: rest) data existing count =
          add_urls_batch_loop now rest (data ++ [newRecord now c.loc c.lastmod])
            (c.loc :: existing) (count + 1) := by
        simp only [add_urls_batch_loop]
        rw [if_neg (by push_neg; exact ⟨hne, hni⟩)]
      obtain ⟨new', g1, g2, g3, g4, g5, g6, g7⟩ :=
        ih (data ++ [newRecord now c.loc c.lastmod]) (c.loc :: existing) (count + 1)
      rw [heq]
      refine ⟨newRecord now c.loc c.lastmod :: new', ?_, ?_, ?_, ?_, ?_, ?_, ?_⟩
      · rw [g1, List.append_assoc]; rfl
      · rw [g2, List.length_cons]; omega
      · intro r hr
        rcases List.mem_cons.mp hr with hrr | hrr
        · subst hrr
          exact ⟨rfl, rfl, hne, hni⟩
        · obtain ⟨p1, p2, p3, p4⟩ := g3 r hrr
          exact ⟨p1, p2, p3, fun hmem => p4 (List.mem_cons_of_mem _ hmem)⟩
      · rw [List.map_cons]
        refine List.nodup_cons.mpr ⟨?_, g4⟩
        intro hmem
        obtain ⟨r', hr', hurl⟩ := List.mem_map.mp hmem
        have := (g3 r' hr').2.2.2
        rw [hurl] at this
        exact this (List.mem_cons_self _ _)
      · intro c' hc' hne'
        rcases List.mem_cons.mp hc' with hcc | hcc
        · subst hcc
          exact g7 c'.loc (List.mem_cons_self _ _)
        · exact g5 c' hcc hne'
      · intro u hu
        rcases g6 u hu with hex | hnew
        · rcases List.mem_cons.mp hex with huc | huc
          · subst huc
            exact Or.inr (by simp [newRecord])
          · exact Or.inl huc
        · exact Or.inr (by rw [List.map_cons]; exact List.mem_cons_of_mem _ hnew)
      · intro u hu
        exact g7 u (List.mem_cons_of_mem _ hu)

/-- C3: batch ingestion is idempotent: on a table with unique URLs the
result again has unique URLs (no duplicate record is ever created), running
`add_urls_batch` a second time with the same candidate set leaves the table
(and hence its record count) unchanged, and every record not already in the
input table was added with status PENDING and `retry_count` 0. -/
theorem add_urls_batch_idempotent_ingestion (now now2 : String)
    (data : List UrlRecord) (urls : List Candidate) :
    ((data.map (fun r => r.url)).Nodup →
      ((add_urls_batch now data urls).table.map (fun r => r.url)).Nodup) ∧
    (add_urls_batch now2 (add_urls_batch now data urls).table urls).table =
      (add_urls_batch now data urls).table ∧
    (add_urls_batch now2 (add_urls_batch now data urls).table urls).table.length =
      (add_urls_batch now data urls).table.length ∧
    (∀ r ∈ (add_urls_batch now data urls).table,
      r ∈ data ∨ (r.status = STATUS_PENDING ∧ r.retry_count = "0")) := by
  obtain ⟨new, h1, h2, h3, h4, h5, h6, h7⟩ :=
    add_urls_batch_loop_spec now urls data (data.map (fun r => r.url)) 0
  have htable : (add_urls_batch now data urls).table =
      (add_urls_batch_loop now urls data (data.map (fun r => r.url)) 0).1 := rfl
  have hT : (add_urls_batch now data urls).table = data ++ new := by
    rw [htable, h1]
  have hskip : ∀ c ∈ urls, c.loc = "" ∨
      c.loc ∈ (data ++ new).map (fun r => r.url) := by
    intro c hc
    by_cases hce : c.loc = ""
    · exact Or.inl hce
    · right
      rcases h6 c.loc (h5 c hc hce) with hex | hnew
      · rw [List.map_append]; exact List.mem_append_left _ hex
      · rw [List.map_append]; exact List.mem_append_right _ hnew
  have hsecond : (add_urls_batch now2 (data ++ new) urls).table = data ++ new := by
    have := add_urls_batch_loop_skip now2 urls (data ++ new)
      ((data ++ new).map (fun r => r.url)) 0 hskip
    have htable2 : (add_urls_batch now2 (data ++ new) urls).table =
        (add_urls_batch_loop now2 urls (data ++ new)
          ((data ++ new).map (fun r => r.url)) 0).1 := rfl
    rw [htable2, this]
  refine ⟨?_, ?_, ?_, ?_⟩
  · intro hnd
    rw [hT, List.map_append]
    refine List.nodup_append.mpr ⟨hnd, h4, ?_⟩
    intro a ha hanew
    obtain ⟨r', hr', hurl⟩ := List.mem_map.mp hanew
    have := (h3 r' hr').2.2.2
    rw [hurl] at this
    exact this ha
  · rw [hT, hsecond]
  · rw [hT, hsecond]
  · intro r hr
    rw [hT] at hr
    rcases List.mem_append.mp hr with hd | hn
    · exact Or.inl hd
    · exact Or.inr ⟨(h3 r hn).1, (h3 r hn).2.1⟩

/-- Witness for C3 at the empty table and one candidate. -/
theorem add_urls_batch_idempotent_ingestion_witness :
    ((add_urls_batch "t" [] [⟨"u", "l"⟩]).table.map (fun r => r.url)).Nodup ∧
    (add_urls_batch "t2" (add_urls_batch "t" [] [⟨"u", "l"⟩]).table
        [⟨"u", "l"⟩]).table =
      (add_urls_batch "t" [] [⟨"u", "l"⟩]).table := by
  have h := add_urls_batch_idempotent_ingestion "t" "t2" [] [⟨"u", "l"⟩]
  exact ⟨h.1 (by simp), h.2.1⟩

/-- C10: when every candidate has an empty URL or a URL already present,
`add_urls_batch` returns 0, does not call `write_csv` at all, and leaves
the table untouched; and a candidate with an empty URL is never added (every
record of the result is an original record or has a non-empty URL). -/
theorem add_urls_batch_skips_empty_and_existing (now : String)
    (data : List UrlRecord) (urls : List Candidate) :
    ((∀ c ∈ urls, c.loc = "" ∨ c.loc ∈ data.map (fun r => r.url)) →
      add_urls_batch now data urls =
        { table := data, added := 0, saved := false }) ∧
    (∀ r ∈ (add_urls_batch now data urls).table, r ∈ data ∨ r.url ≠ "") := by
  constructor
  · intro h
    have hloop := add_urls_batch_loop_skip now urls data
      (data.map (fun r => r.url)) 0 h
    simp [add_urls_batch, hloop]
  · intro r hr
    obtain ⟨new, h1, h2, h3, h4, h5, h6, h7⟩ :=
      add_urls_batch_loop_spec now urls data (data.map (fun r => r.url)) 0
    have hT : (add_urls_batch now data urls).table = data ++ new := by
      have ht : (add_urls_batch now data urls).table =
          (add_urls_batch_loop now urls data (data.map (fun r => r.url)) 0).1 :=
        rfl
      rw [ht, h1]
    rw [hT] at hr
    rcases List.mem_append.mp hr with hd | hn
    · exact Or.inl hd
    · exact Or.inr (h3 r hn).2.2.1

/-- Witness for C10: one empty-URL candidate and one already-present URL. -/
theorem add_urls_batch_skips_empty_and_existing_witness :
    add_urls_batch "t" [newRecord "t0" "u" ""] [⟨"", "x"⟩, ⟨"u", "y"⟩] =
      { table := [newRecord "t0" "u" ""], added := 0, saved := false } := by
  exact (add_urls_batch_skips_empty_and_existing "t" [newRecord "t0" "u" ""]
    [⟨"", "x"⟩, ⟨"u", "y"⟩]).1 (by decide)

theorem update_url_status_absent (now url status : String) (inc : Bool) :
    ∀ data : List UrlRecord, (∀ r ∈ data, r.url ≠ url) →
    update_url_status now data url status inc = none := by
  intro data
  induction data with
  | nil => intro _; rfl
  | cons r rest ih =>
    intro h
    simp only [update_url_status]
    rw [if_neg (h r (List.mem_cons_self r rest))]
    rw [ih (fun r' hr' => h r' (List.mem_cons_of_mem r hr'))]
    rfl

theorem update_url_status_present (now url status : String) (inc : Bool) :
    ∀ (pre : List UrlRecord) (r : UrlRecord) (post : List UrlRecord),
    (∀ r' ∈ pre, r'.url ≠ url) → r.url = url →
    update_url_status now (pre ++ r :: post) url status inc =
      some (pre ++ update_record now status inc r :: post) := by
  intro pre
  induction pre with
  | nil =>
    intro r post _ hr
    simp only [List.nil_append, update_url_status]
    rw [if_pos hr]
  | cons p pre' ih =>
    intro r post hpre hr
    have hstep : update_url_status now ((p :: pre') ++ r :: post) url status inc =
        if p.url = url then
          some (update_record now status inc p :: (pre' ++ r :: post))
        else (update_url_status now (pre' ++ r :: post) url status inc).map
          (fun d => p :: d) := rfl
    rw [hstep, if_neg (hpre p (List.mem_cons_self p pre'))]
    rw [ih r post (fun r' hr' => hpre r' (List.mem_cons_of_mem p hr')) hr]
    rfl

/-- C4: updating an absent URL returns `none` (the table is not rewritten
and no record is created); updating a present URL rewrites the table with
only the first matching record replaced — order and count preserved, every
other record untouched — and the replacement changes only `status` (to the
new value), `updated_at` (to now) and, exactly when `increment_retry` is
set, `retry_count` by exactly 1, leaving `url`, `lastmod` and `created_at`
unchanged. -/
theorem update_url_status_frame (now : String) (data : List UrlRecord)
    (url status : String) (inc : Bool) :
    ((∀ r ∈ data, r.url ≠ url) →
      update_url_status now data url status inc = none) ∧
    (∀ pre r post, data = pre ++ r :: post → (∀ r' ∈ pre, r'.url ≠ url) →
      r.url = url →
      update_url_status now data url status inc =
        some (pre ++ update_record now status inc r :: post)) ∧
    (∀ r : UrlRecord,
      (update_record now status inc r).url = r.url ∧
      (update_record now status inc r).lastmod = r.lastmod ∧
      (update_record now status inc r).created_at = r.created_at ∧
      (update_record now status inc r).status = status ∧
      (update_record now status inc r).updated_at = now ∧
      (update_record now status inc r).retry_count =
        (if inc then toString (r.retry_count.toNat?.getD 0 + 1)
         else r.retry_count)) := by
  refine ⟨update_url_status_absent now url status inc data, ?_, ?_⟩
  · intro pre r post hdata hpre hr
    rw [hdata]
    exact update_url_status_present now url status inc pre r post hpre hr
  · intro r
    exact ⟨rfl, rfl, rfl, rfl, rfl, rfl⟩

/-- Witness for C4: a concrete present URL with retry increment. -/
theorem update_url_status_frame_witness :
    update_url_status "t1" [newRecord "t0" "u" ""] "u" "FAILED" true =
      some [update_record "t1" "FAILED" true (newRecord "t0" "u" "")] := by
  have h := (update_url_status_frame "t1" [newRecord "t0" "u" ""] "u" "FAILED"
    true).2.1 [] (newRecord "t0" "u" "") [] rfl (by simp) rfl
  simpa using h

/-!
Lemmas for the submission-engine claims.
-/

theorem mem_dedupFirst {u : String} : ∀ {l : List String},
    u ∈ dedupFirst l ↔ u ∈ l := by
  intro l
  induction l with
  | nil => simp [dedupFirst]
  | cons v rest ih =>
    simp only [dedupFirst, List.mem_cons, List.mem_filter]
    constructor
    · rintro (h | ⟨hmem, _⟩)
      · exact Or.inl h
      · exact Or.inr (ih.mp hmem)
    · rintro (h | h)
      · exact Or.inl h
      · by_cases huv : u = v
        · exact Or.inl huv
        · exact Or.inr ⟨ih.mpr h, by simp [huv]⟩

theorem nodup_dedupFirst : ∀ l : List String, (dedupFirst l).Nodup := by
  intro l
  induction l with
  | nil => exact List.nodup_nil
  | cons v rest ih =>
    refine List.nodup_cons.mpr ⟨?_, ih.filter _⟩
    intro hmem
    have := (List.mem_filter.mp hmem).2
    simp at this

theorem addState_empty (st : SubmitState) : addState st ⟨[], [], 0⟩ = st := by
  simp [addState]

theorem addState_empty_left (st : SubmitState) : addState ⟨[], [], 0⟩ st = st := by
  simp [addState]

theorem addState_assoc (s1 s2 s3 : SubmitState) :
    addState (addState s1 s2) s3 = addState s1 (addState s2 s3) := by
  simp [addState, List.append_assoc, Nat.add_assoc]

theorem submitLoop_nil (b : Behaviour) (R : Nat) :
    ∀ (fuel attempt : Nat) (st : SubmitState),
    submitLoop b R fuel [] attempt st = st := by
  intro fuel attempt st
  cases fuel with
  | zero => rfl
  | succ f => simp [submitLoop]

theorem submitLoop_addState (b : Behaviour) (R : Nat) :
    ∀ (fuel : Nat) (ws : List String) (attempt : Nat) (st : SubmitState),
    submitLoop b R fuel ws attempt st =
      addState st (submitLoop b R fuel ws attempt ⟨[], [], 0⟩) := by
  intro fuel
  induction fuel with
  | zero =>
    intro ws attempt st
    simp [submitLoop, addState_empty]
  | succ f ih =>
    intro ws attempt st
    by_cases hws : ws.isEmpty
    · simp [submitLoop, hws, addState_empty]
    · have hunf : ∀ s : SubmitState,
          submitLoop b R (f + 1) ws attempt s =
          submitLoop b R f
            (processRound (attempt + 1) R
              (execute_batch_request (b (attempt + 1)) ws)).1 (attempt + 1)
            (addState s
              ⟨(processRound (attempt + 1) R
                  (execute_batch_request (b (attempt + 1)) ws)).2, [ws],
                if ¬(processRound (attempt + 1) R
                      (execute_batch_request (b (attempt + 1)) ws)).1.isEmpty ∧
                    attempt + 1 < R then 1 else 0⟩) := by
        intro s
        simp only [submitLoop]
        rw [if_neg hws]
        rfl
      rw [hunf st, hunf ⟨[], [], 0⟩, addState_empty_left]
      rw [ih]
      conv_rhs => rw [ih]
      rw [addState_assoc]

theorem processRound_map_lt (oracle : String → Option String) (a R : Nat)
    (h : a < R) :
    ∀ ws : List String,
    processRound a R (ws.map (fun u => (u, oracle u))) =
      (ws.filter (fun u => decide (¬ oracle u = none)),
       ws.filterMap (fun u =>
         if oracle u = none then some ⟨u, true, none, a⟩ else none)) := by
  intro ws
  induction ws with
  | nil => rfl
  | cons u rest ih =>
    cases hu : oracle u with
    | none =>
      simp only [List.map_cons, processRound, ih, hu, List.filter_cons,
        List.filterMap_cons]
      simp [hu]
    | some e =>
      simp only [List.map_cons, processRound, ih, hu, List.filter_cons,
        List.filterMap_cons]
      simp [hu, h]

theorem processRound_map_last (oracle : String → Option String) (a R : Nat)
    (h : ¬ a < R) :
    ∀ ws : List String,
    processRound a R (ws.map (fun u => (u, oracle u))) =
      ([], ws.map (fun u => ⟨u, (oracle u).isNone, oracle u, a⟩)) := by
  intro ws
  induction ws with
  | nil => rfl
  | cons u rest ih =>
    cases hu : oracle u with
    | none =>
      simp only [List.map_cons, processRound, ih, hu]
      simp [hu]
    | some e =>
      simp only [List.map_cons, processRound, ih, hu]
      simp [hu, h]

theorem filterMap_key_filter_of_not_mem (g : String → Option NotifyEvent)
    (hg : ∀ v e, g v = some e → e.url = v) (u : String) :
    ∀ l : List String, u ∉ l →
    (l.filterMap g).filter (fun e => decide (e.url = u)) = [] := by
  intro l
  induction l with
  | nil => intro _; rfl
  | cons v rest ih =>
    intro hu
    have hne : u ≠ v := fun h => hu (h ▸ List.mem_cons_self v rest)
    have hurest : u ∉ rest := fun h => hu (List.mem_cons_of_mem v h)
    rw [List.filterMap_cons]
    cases hv : g v with
    | none => exact ih hurest
    | some e =>
      rw [List.filter_cons]
      have : ¬ e.url = u := by
        rw [hg v e hv]; exact fun h => hne h.symm
      simp only [this, decide_False]
      simpa using ih hurest

theorem filterMap_key_filter_of_mem (g : String → Option NotifyEvent)
    (hg : ∀ v e, g v = some e → e.url = v) (u : String) :
    ∀ l : List String, l.Nodup → u ∈ l →
    (l.filterMap g).filter (fun e => decide (e.url = u)) = (g u).toList := by
  intro l
  induction l with
  | nil => intro _ h; exact absurd h (List.not_mem_nil u)
  | cons v rest ih =>
    intro hnd hu
    obtain ⟨hvrest, hndrest⟩ := List.nodup_cons.mp hnd
    rw [List.filterMap_cons]
    by_cases huv : u = v
    · subst huv
      cases hv : g u with
      | none =>
        rw [filterMap_key_filter_of_not_mem g hg u rest hvrest]
        rfl
      | some e =>
        rw [List.filter_cons]
        have he : e.url = u := hg u e hv
        simp only [he, decide_True, if_true]
        rw [filterMap_key_filter_of_not_mem g hg u rest hvrest]
        rfl
    · have hurest : u ∈ rest := by
        rcases List.mem_cons.mp hu with h | h
        · exact absurd h huv
        · exact h
      cases hv : g v with
      | none => exact ih hndrest hurest
      | some e =>
        rw [List.filter_cons]
        have : ¬ e.url = u := by
          rw [hg v e hv]; exact fun h => huv h.symm
        simp only [this, decide_False]
        simpa using ih hndrest hurest

theorem submitLoop_spec (b : Behaviour) (R : Nat) :
    ∀ (fuel attempt : Nat) (ws : List String),
    attempt + fuel = R → (0 < fuel ∨ ws = []) →
    (∀ u ∈ ws,
      (submitLoop b R fuel ws attempt ⟨[], [], 0⟩).events.filter
        (fun e => decide (e.url = u)) = [expectedEvent b R attempt fuel u]) ∧
    (∀ u : String, u ∉ ws →
      (submitLoop b R fuel ws attempt ⟨[], [], 0⟩).events.filter
        (fun e => decide (e.url = u)) = []) ∧
    (submitLoop b R fuel ws attempt ⟨[], [], 0⟩).batches.length ≤ fuel ∧
    (∀ e ∈ (submitLoop b R fuel ws attempt ⟨[], [], 0⟩).events,
      attempt + 1 ≤ e.attempt) ∧
    (∀ (j : Nat)
      (hj : j < (submitLoop b R fuel ws attempt ⟨[], [], 0⟩).batches.length),
      ∀ u ∈ (submitLoop b R fuel ws attempt ⟨[], [], 0⟩).batches.get ⟨j, hj⟩,
      u ∈ ws) ∧
    (∀ (j : Nat)
      (hj : j < (submitLoop b R fuel ws attempt ⟨[], [], 0⟩).batches.length),
      ∀ u ∈ (submitLoop b R fuel ws attempt ⟨[], [], 0⟩).batches.get ⟨j, hj⟩,
      ∀ e ∈ (submitLoop b R fuel ws attempt ⟨[], [], 0⟩).events,
      e.url = u → e.success = true → attempt + j + 1 ≤ e.attempt) := by
  intro fuel
  induction fuel with
  | zero =>
    intro attempt ws hsum hpos
    have hws : ws = [] := by
      rcases hpos with h | h
      · omega
      · exact h
    subst hws
    rw [submitLoop_nil]
    refine ⟨?_, ?_, ?_, ?_, ?_, ?_⟩
    · intro u hu; exact absurd hu (List.not_mem_nil u)
    · intro u _; rfl
    · exact Nat.le_refl 0
    · intro e he; exact absurd he (List.not_mem_nil e)
    · intro j hj; exact absurd hj (Nat.not_lt_zero j)
    · intro j hj; exact absurd hj (Nat.not_lt_zero j)
  | succ f ih =>
    intro attempt ws hsum hpos
    by_cases hwsnil : ws = []
    · subst hwsnil
      rw [submitLoop_nil]
      refine ⟨?_, ?_, ?_, ?_, ?_, ?_⟩
      · intro u hu; exact absurd hu (List.not_mem_nil u)
      · intro u _; rfl
      · exact Nat.zero_le _
      · intro e he; exact absurd he (List.not_mem_nil e)
      · intro j hj; exact absurd hj (Nat.not_lt_zero j)
      · intro j hj; exact absurd hj (Nat.not_lt_zero j)
    · have hIsEmpty : ¬ ws.isEmpty = true := by
        cases ws with
        | nil => exact absurd rfl hwsnil
        | cons x xs => simp
      have hF : submitLoop b R (f + 1) ws attempt ⟨[], [], 0⟩ =
          addState
            ⟨(processRound (attempt + 1) R
                (execute_batch_request (b (attempt + 1)) ws)).2, [ws],
              if ¬(processRound (attempt + 1) R
                    (execute_batch_request (b (attempt + 1)) ws)).1.isEmpty ∧
                  attempt + 1 < R then 1 else 0⟩
            (submitLoop b R f
              (processRound (attempt + 1) R
                (execute_batch_request (b (attempt + 1)) ws)).1
              (attempt + 1) ⟨[], [], 0⟩) := by
        conv_lhs => simp only [submitLoop]
        rw [if_neg hIsEmpty, submitLoop_addState]
        congr 1
        simp
      by_cases ha : attempt + 1 < R
      · -- at least one retry round remains after this one
        have hf1 : 0 < f := by omega
        have hexec : execute_batch_request (b (attempt + 1)) ws =
            (dedupFirst ws).map (fun u => (u, b (attempt + 1) u)) := rfl
        rw [hexec, processRound_map_lt (b (attempt + 1)) (attempt + 1) R ha]
          at hF
        dsimp only at hF
        set nr := (dedupFirst ws).filter
          (fun u => decide (¬ b (attempt + 1) u = none)) with hnrdef
        set ev := (dedupFirst ws).filterMap
          (fun u => if b (attempt + 1) u = none
            then some (⟨u, true, none, attempt + 1⟩ : NotifyEvent) else none)
          with hevdef
        have hg : ∀ (v : String) (e : NotifyEvent),
            (if b (attempt + 1) v = none
              then some (⟨v, true, none, attempt + 1⟩ : NotifyEvent)
              else none) = some e →
            e.url = v := by
          intro v e h
          by_cases hbv : b (attempt + 1) v = none
          · rw [if_pos hbv] at h
            cases h
            rfl
          · rw [if_neg hbv] at h
            exact Option.noConfusion h
        obtain ⟨ha1, ha2, ha3, ha4, ha5, ha6⟩ :=
          ih (attempt + 1) nr (by omega) (Or.inl hf1)
        have hEvents : (submitLoop b R (f + 1) ws attempt ⟨[], [], 0⟩).events =
            ev ++ (submitLoop b R f nr (attempt + 1) ⟨[], [], 0⟩).events := by
          rw [hF]
          rfl
        have hBatches :
            (submitLoop b R (f + 1) ws attempt ⟨[], [], 0⟩).batches =
            ws :: (submitLoop b R f nr (attempt + 1) ⟨[], [], 0⟩).batches := by
          rw [hF]
          rfl
        refine ⟨?_, ?_, ?_, ?_, ?_, ?_⟩
        · intro u hu
          have hu' : u ∈ dedupFirst ws := mem_dedupFirst.mpr hu
          rw [hEvents, List.filter_append]
          by_cases hbu : b (attempt + 1) u = none
          · have hkey := filterMap_key_filter_of_mem _ hg u (dedupFirst ws)
              (nodup_dedupFirst ws) hu'
            rw [if_pos hbu] at hkey
            have hnru : u ∉ nr := by
              intro hmem
              rw [hnrdef] at hmem
              have := (List.mem_filter.mp hmem).2
              simp [hbu] at this
            rw [hevdef, hkey, ha2 u hnru]
            have hexp : expectedEvent b R attempt (f + 1) u =
                ⟨u, true, none, attempt + 1⟩ := by
              unfold expectedEvent
              rw [List.range'_succ, List.find?_cons_of_pos _ (by simp [hbu])]
            rw [hexp]
            rfl
          · have hkey := filterMap_key_filter_of_mem _ hg u (dedupFirst ws)
              (nodup_dedupFirst ws) hu'
            rw [if_neg hbu] at hkey
            have hnru : u ∈ nr := by
              rw [hnrdef]
              exact List.mem_filter.mpr ⟨hu', by simp [hbu]⟩
            rw [hevdef, hkey, ha1 u hnru]
            have hexp : expectedEvent b R attempt (f + 1) u =
                expectedEvent b R (attempt + 1) f u := by
              unfold expectedEvent
              rw [List.range'_succ, List.find?_cons_of_neg _ (by simp [hbu])]
            rw [hexp]
            rfl
        · intro u hu
          have hu' : u ∉ dedupFirst ws := fun h => hu (mem_dedupFirst.mp h)
          have hnru : u ∉ nr := by
            intro hmem
            rw [hnrdef] at hmem
            exact hu' (List.mem_filter.mp hmem).1
          rw [hEvents, List.filter_append, hevdef,
            filterMap_key_filter_of_not_mem _ hg u (dedupFirst ws) hu',
            ha2 u hnru]
          rfl
        · rw [hBatches]
          simp only [List.length_cons]
          omega
        · intro e he
          rw [hEvents] at he
          rcases List.mem_append.mp he with hnew | hrec
          · rw [hevdef] at hnew
            obtain ⟨v, hv, hve⟩ := List.mem_filterMap.mp hnew
            by_cases hbv : b (attempt + 1) v = none
            · rw [if_pos hbv] at hve
              cases hve
              exact Nat.le_refl _
            · rw [if_neg hbv] at hve
              exact Option.noConfusion hve
          · have := ha4 e hrec
            omega
        · rw [hBatches]
          intro j hj u hu
          cases j with
          | zero => exact hu
          | succ j' =>
            have hu' : u ∈ nr := ha5 j' (Nat.lt_of_succ_lt_succ hj) u hu
            rw [hnrdef] at hu'
            exact mem_dedupFirst.mp (List.mem_filter.mp hu').1
        · rw [hBatches, hEvents]
          intro j hj u hu e he hurl hsucc
          rcases List.mem_append.mp he with hnew | hrec
          · rw [hevdef] at hnew
            obtain ⟨v, hv, hve⟩ := List.mem_filterMap.mp hnew
            by_cases hbv : b (attempt + 1) v = none
            · rw [if_pos hbv] at hve
              cases hve
              cases j with
              | zero => exact Nat.le_refl _
              | succ j' =>
                have hunr : u ∈ nr := ha5 j' (Nat.lt_of_succ_lt_succ hj) u hu
                have hbu : ¬ b (attempt + 1) u = none := by
                  rw [hnrdef] at hunr
                  have := (List.mem_filter.mp hunr).2
                  simpa using this
                have hvu : v = u := hurl
                rw [hvu] at hbv
                exact absurd hbv hbu
            · rw [if_neg hbv] at hve
              exact Option.noConfusion hve
          · cases j with
            | zero =>
              have := ha4 e hrec
              omega
            | succ j' =>
              have := ha6 j' (Nat.lt_of_succ_lt_succ hj) u hu e hrec hurl hsucc
              omega
      · -- this is round R: every still-failing URL is finalised now
        have hf0 : f = 0 := by omega
        subst hf0
        have haR : attempt + 1 = R := by omega
        have hexec : execute_batch_request (b (attempt + 1)) ws =
            (dedupFirst ws).map (fun u => (u, b (attempt + 1) u)) := rfl
        rw [hexec, processRound_map_last (b (attempt + 1)) (attempt + 1) R ha]
          at hF
        dsimp only at hF
        have hrec0 : submitLoop b R 0 ([] : List String) (attempt + 1)
            ⟨[], [], 0⟩ = ⟨[], [], 0⟩ := rfl
        rw [hrec0, addState_empty] at hF
        have hEvents : (submitLoop b R (0 + 1) ws attempt ⟨[], [], 0⟩).events =
            (dedupFirst ws).map (fun u =>
              (⟨u, (b (attempt + 1) u).isNone, b (attempt + 1) u,
                attempt + 1⟩ : NotifyEvent)) := by
          rw [hF]
        have hBatches :
            (submitLoop b R (0 + 1) ws attempt ⟨[], [], 0⟩).batches = [ws] := by
          rw [hF]
        have hg2 : ∀ (v : String) (e : NotifyEvent),
            (some ∘ fun u =>
              (⟨u, (b (attempt + 1) u).isNone, b (attempt + 1) u,
                attempt + 1⟩ : NotifyEvent)) v = some e →
            e.url = v := by
          intro v e h
          cases h
          rfl
        refine ⟨?_, ?_, ?_, ?_, ?_, ?_⟩
        · intro u hu
          have hu' : u ∈ dedupFirst ws := mem_dedupFirst.mpr hu
          rw [hEvents, ← List.filterMap_eq_map,
            filterMap_key_filter_of_mem _ hg2 u (dedupFirst ws)
              (nodup_dedupFirst ws) hu']
          cases hbu : b (attempt + 1) u with
          | none =>
            have hexp : expectedEvent b R attempt (0 + 1) u =
                ⟨u, true, none, attempt + 1⟩ := by
              unfold expectedEvent
              rw [List.range'_succ, List.find?_cons_of_pos _ (by simp [hbu])]
            rw [hexp]
            simp [hbu]
          | some msg =>
            have hexp : expectedEvent b R attempt (0 + 1) u =
                ⟨u, false, b R u, R⟩ := by
              unfold expectedEvent
              rw [List.range'_succ, List.find?_cons_of_neg _ (by simp [hbu])]
              rfl
            rw [hexp, ← haR]
            simp [hbu]
        · intro u hu
          have hu' : u ∉ dedupFirst ws := fun h => hu (mem_dedupFirst.mp h)
          rw [hEvents, ← List.filterMap_eq_map,
            filterMap_key_filter_of_not_mem _ hg2 u (dedupFirst ws) hu']
        · rw [hBatches]
          exact Nat.le_refl 1
        · intro e he
          rw [hEvents] at he
          obtain ⟨v, hv, hve⟩ := List.mem_map.mp he
          cases hve
          exact Nat.le_refl _
        · rw [hBatches]
          intro j hj u hu
          cases j with
          | zero => exact hu
          | succ j' => exact absurd hj (by simp)
        · rw [hBatches, hEvents]
          intro j hj u hu e he hurl hsucc
          cases j with
          | zero =>
            obtain ⟨v, hv, hve⟩ := List.mem_map.mp he
            cases hve
            exact Nat.le_refl _
          | succ j' => exact absurd hj (by simp)

theorem submitLoop_cons_step (b : Behaviour) (R f attempt : Nat)
    (ws : List String) (hIsEmpty : ¬ ws.isEmpty = true) :
    submitLoop b R (f + 1) ws attempt ⟨[], [], 0⟩ =
      addState
        ⟨(processRound (attempt + 1) R
            (execute_batch_request (b (attempt + 1)) ws)).2, [ws],
          if ¬(processRound (attempt + 1) R
                (execute_batch_request (b (attempt + 1)) ws)).1.isEmpty ∧
              attempt + 1 < R then 1 else 0⟩
        (submitLoop b R f
          (processRound (attempt + 1) R
            (execute_batch_request (b (attempt + 1)) ws)).1
          (attempt + 1) ⟨[], [], 0⟩) := by
  conv_lhs => simp only [submitLoop]
  rw [if_neg hIsEmpty, submitLoop_addState]
  congr 1
  simp

theorem submitLoop_sleeps (b : Behaviour) (R : Nat) :
    ∀ (fuel attempt : Nat) (ws : List String),
    attempt + fuel = R → 0 < fuel → ws ≠ [] →
    (submitLoop b R fuel ws attempt ⟨[], [], 0⟩).sleeps + 1 =
      (submitLoop b R fuel ws attempt ⟨[], [], 0⟩).batches.length := by
  intro fuel
  induction fuel with
  | zero =>
    intro attempt ws _ hf _
    exact absurd hf (Nat.lt_irrefl 0)
  | succ f ih =>
    intro attempt ws hsum _ hws
    have hIsEmpty : ¬ ws.isEmpty = true := by simpa using hws
    have hF := submitLoop_cons_step b R f attempt ws hIsEmpty
    have hexec : execute_batch_request (b (attempt + 1)) ws =
        (dedupFirst ws).map (fun u => (u, b (attempt + 1) u)) := rfl
    by_cases ha : attempt + 1 < R
    · rw [hexec, processRound_map_lt (b (attempt + 1)) (attempt + 1) R ha]
        at hF
      dsimp only at hF
      set nr := (dedupFirst ws).filter
        (fun u => decide (¬ b (attempt + 1) u = none)) with hnrdef
      by_cases hnr : nr = []
      · rw [hnr, submitLoop_nil, addState_empty, if_neg (by simp)] at hF
        rw [hF]
        rfl
      · have hf1 : 0 < f := by omega
        have hnrE : ¬ nr.isEmpty = true := by simpa using hnr
        rw [if_pos ⟨hnrE, ha⟩] at hF
        have hrec := ih (attempt + 1) nr (by omega) hf1 hnr
        rw [hF]
        simp only [addState, List.length_append, List.length_singleton]
        omega
    · rw [hexec, processRound_map_last (b (attempt + 1)) (attempt + 1) R ha]
        at hF
      dsimp only at hF
      rw [submitLoop_nil, addState_empty, if_neg (by simp)] at hF
      rw [hF]
      rfl

theorem submitLoop_erase (b1 b2 : Behaviour) (R : Nat)
    (hb : ∀ k u, b1 k u = none ↔ b2 k u = none) :
    ∀ (fuel attempt : Nat) (ws : List String),
    ((submitLoop b1 R fuel ws attempt ⟨[], [], 0⟩).events.map
        (fun e => (e.url, e.success, e.attempt)) =
      (submitLoop b2 R fuel ws attempt ⟨[], [], 0⟩).events.map
        (fun e => (e.url, e.success, e.attempt))) ∧
    (submitLoop b1 R fuel ws attempt ⟨[], [], 0⟩).batches =
      (submitLoop b2 R fuel ws attempt ⟨[], [], 0⟩).batches ∧
    (submitLoop b1 R fuel ws attempt ⟨[], [], 0⟩).sleeps =
      (submitLoop b2 R fuel ws attempt ⟨[], [], 0⟩).sleeps := by
  intro fuel
  induction fuel with
  | zero => intro attempt ws; exact ⟨rfl, rfl, rfl⟩
  | succ f ih =>
    intro attempt ws
    by_cases hws : ws = []
    · subst hws
      rw [submitLoop_nil, submitLoop_nil]
      exact ⟨rfl, rfl, rfl⟩
    · have hIsEmpty : ¬ ws.isEmpty = true := by simpa using hws
      have hF1 := submitLoop_cons_step b1 R f attempt ws hIsEmpty
      have hF2 := submitLoop_cons_step b2 R f attempt ws hIsEmpty
      have hexec1 : execute_batch_request (b1 (attempt + 1)) ws =
          (dedupFirst ws).map (fun u => (u, b1 (attempt + 1) u)) := rfl
      have hexec2 : execute_batch_request (b2 (attempt + 1)) ws =
          (dedupFirst ws).map (fun u => (u, b2 (attempt + 1) u)) := rfl
      by_cases ha : attempt + 1 < R
      · rw [hexec1,
          processRound_map_lt (b1 (attempt + 1)) (attempt + 1) R ha] at hF1
        rw [hexec2,
          processRound_map_lt (b2 (attempt + 1)) (attempt + 1) R ha] at hF2
        dsimp only at hF1 hF2
        have hbool : ∀ u, (decide (¬ b1 (attempt + 1) u = none)) =
            (decide (¬ b2 (attempt + 1) u = none)) := by
          intro u
          by_cases h : b1 (attempt + 1) u = none
          · have h2 := (hb (attempt + 1) u).mp h
            simp [h, h2]
          · have h2 : ¬ b2 (attempt + 1) u = none :=
              fun hh => h ((hb (attempt + 1) u).mpr hh)
            simp [h, h2]
        have hnr : (dedupFirst ws).filter
              (fun u => decide (¬ b1 (attempt + 1) u = none)) =
            (dedupFirst ws).filter
              (fun u => decide (¬ b2 (attempt + 1) u = none)) :=
          List.filter_congr (fun u _ => hbool u)
        have hev : ((dedupFirst ws).filterMap
              (fun u => if b1 (attempt + 1) u = none
                then some (⟨u, true, none, attempt + 1⟩ : NotifyEvent)
                else none)).map (fun e => (e.url, e.success, e.attempt)) =
            ((dedupFirst ws).filterMap
              (fun u => if b2 (attempt + 1) u = none
                then some (⟨u, true, none, attempt + 1⟩ : NotifyEvent)
                else none)).map (fun e => (e.url, e.success, e.attempt)) := by
          rw [List.map_filterMap, List.map_filterMap]
          refine List.filterMap_congr (fun u _ => ?_)
          by_cases h : b1 (attempt + 1) u = none
          · have h2 := (hb (attempt + 1) u).mp h
            rw [if_pos h, if_pos h2]
          · have h2 : ¬ b2 (attempt + 1) u = none :=
              fun hh => h ((hb (attempt + 1) u).mpr hh)
            rw [if_neg h, if_neg h2]
        obtain ⟨ih1, ih2, ih3⟩ := ih (attempt + 1)
          ((dedupFirst ws).filter
            (fun u => decide (¬ b1 (attempt + 1) u = none)))
        rw [hF1, hF2, ← hnr]
        refine ⟨?_, ?_, ?_⟩
        · simp only [addState, List.map_append]
          rw [hev, ih1]
        · simp only [addState]
          rw [ih2]
        · simp only [addState]
          rw [ih3, hnr]
      · rw [hexec1,
          processRound_map_last (b1 (attempt + 1)) (attempt + 1) R ha] at hF1
        rw [hexec2,
          processRound_map_last (b2 (attempt + 1)) (attempt + 1) R ha] at hF2
        dsimp only at hF1 hF2
        rw [submitLoop_nil, addState_empty] at hF1 hF2
        rw [hF1, hF2]
        refine ⟨?_, rfl, rfl⟩
        rw [List.map_map, List.map_map]
        refine List.map_congr_left (fun u _ => ?_)
        by_cases h : b1 (attempt + 1) u = none
        · have h2 := (hb (attempt + 1) u).mp h
          simp [h, h2]
        · have h2 : ¬ b2 (attempt + 1) u = none :=
            fun hh => h ((hb (attempt + 1) u).mpr hh)
          cases hx : b1 (attempt + 1) u with
          | none => exact absurd hx h
          | some m1 =>
            cases hy : b2 (attempt + 1) u with
            | none => exact absurd hy h2
            | some m2 => simp [hx, hy]

/-- C1: for a non-empty list of at most 100 URLs, any `max_retry R ≥ 1` and
any behaviour of the per-round batch request, `submit_urls` issues at most
`R` batch rounds, and for every input URL exactly one notification fires:
a success at the first round in `1..R` where that URL succeeds, or a
failure at round `R` carrying round `R`'s error message when it failed in
every round. -/
theorem submit_urls_retry_bound_notify_once (b : Behaviour)
    (urls : List String) (R : Nat) (h1 : urls ≠ []) (h2 : urls.length ≤ 100)
    (h3 : 1 ≤ R) :
    ∃ st, submit_urls b urls R = Except.ok st ∧
      st.batches.length ≤ R ∧
      ∀ u ∈ urls,
        st.events.filter (fun e => decide (e.url = u)) =
          [(match first_success b R u with
            | some k => (⟨u, true, none, k⟩ : NotifyEvent)
            | none => (⟨u, false, b R u, R⟩ : NotifyEvent))] := by
  have hc1 : ¬ urls.isEmpty = true := by simpa using h1
  have hc2 : ¬ 100 < urls.length := by omega
  have hok : submit_urls b urls R =
      Except.ok (submitLoop b R R urls 0 ⟨[], [], 0⟩) := by
    unfold submit_urls
    rw [if_neg hc1, if_neg hc2]
  obtain ⟨ha1, _, ha3, _, _, _⟩ :=
    submitLoop_spec b R R 0 urls (by omega) (Or.inl (by omega))
  refine ⟨_, hok, ha3, ?_⟩
  intro u hu
  exact ha1 u hu

/-- Witness for C1: one URL failing in round 1 and succeeding in round 2,
with three allowed rounds. -/
theorem submit_urls_retry_bound_notify_once_witness :
    submit_urls (fun k _ => if k = 2 then none else some "err") ["a"] 3 =
      Except.ok ⟨[⟨"a", true, none, 2⟩], [["a"], ["a"]], 1⟩ ∧
    ([["a"], ["a"]] : List (List String)).length ≤ 3 := by
  obtain ⟨st, hok, hbound, _⟩ := submit_urls_retry_bound_notify_once
    (fun k _ => if k = 2 then none else some "err") ["a"] 3 (by simp)
    (by simp) (by omega)
  have hcalc : submit_urls (fun k _ => if k = 2 then none else some "err")
      ["a"] 3 = Except.ok ⟨[⟨"a", true, none, 2⟩], [["a"], ["a"]], 1⟩ := by
    rfl
  refine ⟨hcalc, ?_⟩
  have hst : st = ⟨[⟨"a", true, none, 2⟩], [["a"], ["a"]], 1⟩ :=
    Except.ok.inj (hok.symm.trans hcalc)
  rw [hst] at hbound
  exact hbound

/-- C2: within one `submit_urls` call, the working set submitted at any
round `k = j + 1` contains no URL with a success notification from an
earlier round: every success event for a URL of batch `j` has attempt
number at least `j + 1`. -/
theorem submit_urls_never_resubmits_successes (b : Behaviour)
    (urls : List String) (R : Nat) (st : SubmitState)
    (hok : submit_urls b urls R = Except.ok st) :
    ∀ (j : Nat) (hj : j < st.batches.length),
      ∀ u ∈ st.batches.get ⟨j, hj⟩,
      ∀ e ∈ st.events, e.url = u → e.success = true → j + 1 ≤ e.attempt := by
  unfold submit_urls at hok
  by_cases hc1 : urls.isEmpty = true
  · rw [if_pos hc1] at hok
    exact Except.noConfusion hok
  · rw [if_neg hc1] at hok
    by_cases hc2 : 100 < urls.length
    · rw [if_pos hc2] at hok
      exact Except.noConfusion hok
    · rw [if_neg hc2] at hok
      have hst : st = submitLoop b R R urls 0 ⟨[], [], 0⟩ :=
        (Except.ok.inj hok).symm
      subst hst
      rcases Nat.eq_zero_or_pos R with hR | hR
      · subst hR
        intro j hj
        exact absurd hj (by simp [submitLoop])
      · obtain ⟨_, _, _, _, _, ha6⟩ :=
          submitLoop_spec b R R 0 urls (by omega) (Or.inl hR)
        intro j hj u hu e he hurl hsucc
        have := ha6 j hj u hu e he hurl hsucc
        omega

/-- Witness for C2: a URL that succeeds in round 1 under an all-success
behaviour; its success event's attempt number is at least 1. -/
theorem submit_urls_never_resubmits_successes_witness :
    (0 : Nat) + 1 ≤ (⟨"a", true, none, 1⟩ : NotifyEvent).attempt := by
  exact submit_urls_never_resubmits_successes (fun _ _ => none) ["a"] 1
    ⟨[⟨"a", true, none, 1⟩], [["a"]], 0⟩ (by rfl) 0 (by decide) "a"
    (by decide) ⟨"a", true, none, 1⟩ (by decide) rfl rfl

/-- C5: `submit_urls` rejects the empty list and lists longer than 100 with
the corresponding `ValueError` message, independently of the batch
behaviour (so before any batch request is issued); for 1 to 100 URLs no
rejection occurs and a result trace (in which per-URL failures live) is
returned, making the rejection distinguishable from a submission failure. -/
theorem submit_urls_batch_size_enforcement (b b2 : Behaviour)
    (urls : List String) (R : Nat) :
    (urls = [] →
      submit_urls b urls R = Except.error "URL 리스트가 비어있습니다." ∧
      submit_urls b2 urls R = submit_urls b urls R) ∧
    (100 < urls.length →
      submit_urls b urls R =
        Except.error "배치 요청은 최대 100개의 URL만 허용됩니다." ∧
      submit_urls b2 urls R = submit_urls b urls R) ∧
    (urls ≠ [] → urls.length ≤ 100 →
      ∃ st, submit_urls b urls R = Except.ok st) := by
  refine ⟨?_, ?_, ?_⟩
  · intro h
    subst h
    exact ⟨rfl, rfl⟩
  · intro h
    have hne : urls ≠ [] := by
      intro hh
      subst hh
      simp at h
    have hc1 : ¬ urls.isEmpty = true := by simpa using hne
    constructor
    · unfold submit_urls
      rw [if_neg hc1, if_pos h]
    · unfold submit_urls
      rw [if_neg hc1, if_pos h, if_neg hc1, if_pos h]
  · intro hne hle
    have hc1 : ¬ urls.isEmpty = true := by simpa using hne
    have hc2 : ¬ 100 < urls.length := by omega
    refine ⟨submitLoop b R R urls 0 ⟨[], [], 0⟩, ?_⟩
    unfold submit_urls
    rw [if_neg hc1, if_neg hc2]

/-- Witness for C5: the empty list is rejected with the empty-list message,
independently of the behaviour. -/
theorem submit_urls_batch_size_enforcement_witness :
    submit_urls (fun _ _ => none) [] 3 =
      Except.error "URL 리스트가 비어있습니다." ∧
    submit_urls (fun _ _ => some "e") [] 3 =
      submit_urls (fun _ _ => none) [] 3 :=
  (submit_urls_batch_size_enforcement (fun _ _ => none)
    (fun _ _ => some "e") [] 3).1 rfl

/-- C7: `submit_urls` never sleeps after its last round — each executed
round beyond the first is preceded by exactly one delay, so `sleeps + 1 =
rounds`; in particular, when every URL succeeds in round 1 it issues
exactly one batch request and performs no inter-round delay at all. -/
theorem submit_urls_early_exit (b : Behaviour) (urls : List String) (R : Nat)
    (h1 : urls ≠ []) (h2 : urls.length ≤ 100) (h3 : 1 ≤ R) :
    (∀ st, submit_urls b urls R = Except.ok st →
      st.sleeps + 1 = st.batches.length) ∧
    ((∀ u ∈ urls, b 1 u = none) →
      ∃ st, submit_urls b urls R = Except.ok st ∧
        st.batches.length = 1 ∧ st.sleeps = 0) := by
  have hc1 : ¬ urls.isEmpty = true := by simpa using h1
  have hc2 : ¬ 100 < urls.length := by omega
  have hok : submit_urls b urls R =
      Except.ok (submitLoop b R R urls 0 ⟨[], [], 0⟩) := by
    unfold submit_urls
    rw [if_neg hc1, if_neg hc2]
  constructor
  · intro st hst
    have hsteq : st = submitLoop b R R urls 0 ⟨[], [], 0⟩ :=
      (Except.ok.inj (hok.symm.trans hst)).symm
    rw [hsteq]
    exact submitLoop_sleeps b R R 0 urls (by omega) (by omega) h1
  · intro hsucc
    obtain ⟨f, rfl⟩ : ∃ f, R = f + 1 := ⟨R - 1, by omega⟩
    have hF := submitLoop_cons_step b (f + 1) f 0 urls hc1
    have hexec : execute_batch_request (b (0 + 1)) urls =
        (dedupFirst urls).map (fun u => (u, b (0 + 1) u)) := rfl
    by_cases ha : 0 + 1 < f + 1
    · rw [hexec,
        processRound_map_lt (b (0 + 1)) (0 + 1) (f + 1) ha] at hF
      dsimp only at hF
      have hnr : (dedupFirst urls).filter
          (fun u => decide (¬ b (0 + 1) u = none)) = [] := by
        rw [List.filter_eq_nil_iff]
        intro u hu
        have := hsucc u (mem_dedupFirst.mp hu)
        simp [this]
      rw [hnr, submitLoop_nil, addState_empty, if_neg (by simp)] at hF
      refine ⟨_, hok, ?_, ?_⟩
      · rw [hF]
        rfl
      · rw [hF]
    · have hf0 : f = 0 := by omega
      subst hf0
      rw [hexec,
        processRound_map_last (b (0 + 1)) (0 + 1) (0 + 1) ha] at hF
      dsimp only at hF
      rw [submitLoop_nil, addState_empty, if_neg (by simp)] at hF
      refine ⟨_, hok, ?_, ?_⟩
      · rw [hF]
        rfl
      · rw [hF]

/-- Witness for C7 at an all-success behaviour on one URL with three
allowed rounds. -/
theorem submit_urls_early_exit_witness :
    ∃ st, submit_urls (fun _ _ => none) ["a"] 3 = Except.ok st ∧
      st.batches.length = 1 ∧ st.sleeps = 0 := by
  have h := submit_urls_early_exit (fun _ _ => none) ["a"] 3 (by simp)
    (by simp) (by omega)
  exact h.2 (fun u _ => rfl)

/-- C8: the HTTP-status-based error classification only decorates the error
string: two runs whose per-round success/failure pattern agrees but whose
status codes and raw messages differ produce the same rounds, the same
per-round working sets, the same delays and the same per-URL verdicts and
attempt numbers (everything except the error strings). -/
theorem submit_urls_classification_cosmetic
    (succ : Nat → String → Bool) (code1 code2 : Nat → String → Nat)
    (msg1 msg2 : Nat → String → String) (urls : List String) (R : Nat) :
    (submit_urls (fun k u => if succ k u then none
        else some (classify_error (code1 k u) (msg1 k u))) urls R).map
      eraseView =
    (submit_urls (fun k u => if succ k u then none
        else some (classify_error (code2 k u) (msg2 k u))) urls R).map
      eraseView := by
  have hb : ∀ (k : Nat) (u : String),
      (if succ k u then none
        else some (classify_error (code1 k u) (msg1 k u))) = none ↔
      (if succ k u then none
        else some (classify_error (code2 k u) (msg2 k u))) = none := by
    intro k u
    by_cases h : succ k u
    · simp [h]
    · simp [h]
  unfold submit_urls
  by_cases hc1 : urls.isEmpty = true
  · rw [if_pos hc1, if_pos hc1]
  · rw [if_neg hc1, if_neg hc1]
    by_cases hc2 : 100 < urls.length
    · rw [if_pos hc2, if_pos hc2]
    · rw [if_neg hc2, if_neg hc2]
      obtain ⟨h1, h2, h3⟩ := submitLoop_erase
        (fun k u => if succ k u then none
          else some (classify_error (code1 k u) (msg1 k u)))
        (fun k u => if succ k u then none
          else some (classify_error (code2 k u) (msg2 k u)))
        R hb R 0 urls
      simp only [Except.map]
      unfold eraseView
      rw [h1, h2, h3]
